import Mathlib

/-!
# timburr: purge executor, forwarding executor, metadata watcher, subscription

A shallow embedding of the core of `52poke/timburr` (Go) and theorems about it.

* Go strings are modelled by `String`; the standard-library string functions the
  code calls (`strings.Split`, `strings.ReplaceAll`) are written out below.
* Library calls whose result is decided outside the repository (`url.Parse`,
  `regexp.MatchString`, `json.Unmarshal`, `time.Format`, `strings.ToLower`,
  `http.NewRequestWithContext`) are fields of `Env`.
* Iteration over a Go map visits every key once in an unspecified order; the
  order is a parameter (`MapOrder`), constrained only to be a permutation.
* Times are integers (nanoseconds since the epoch), durations are integers
  (nanoseconds).
-/

namespace Timburr

/-! ## Go string functions -/

/-- Scanner of `strings.ReplaceAll` for a non-empty `old`: the counter is the number
of characters of the current match that are still to be dropped. -/
def replaceFrom (old new : List Char) : Nat → List Char → List Char
  | _, [] => []
  | k + 1, _ :: cs => replaceFrom old new k cs
  | 0, c :: cs =>
    if old.isPrefixOf (c :: cs) then new ++ replaceFrom old new (old.length - 1) cs
    else c :: replaceFrom old new 0 cs

/-- With an empty `old`, `strings.ReplaceAll` inserts `new` before every character
and at the end. -/
def replaceEmpty (new : List Char) : List Char → List Char
  | [] => new
  | c :: cs => new ++ c :: replaceEmpty new cs

/-- Go `strings.ReplaceAll(s, old, new)`: every non-overlapping occurrence of `old`,
leftmost first, is replaced by `new`. -/
def ReplaceAll (s old new : String) : String :=
  if old.data = [] then String.mk (replaceEmpty new.data s.data)
  else String.mk (replaceFrom old.data new.data 0 s.data)

/-- Scanner of `strings.Split` for a one-character separator; `acc` is the current
piece, reversed. -/
def splitFrom (sep : Char) : List Char → List Char → List String
  | acc, [] => [String.mk acc.reverse]
  | acc, c :: cs =>
    if c = sep then String.mk acc.reverse :: splitFrom sep [] cs
    else splitFrom sep (c :: acc) cs

/-- Go `strings.Split(s, sep)` for a one-character separator: always at least one
piece. -/
def Split (s : String) (sep : Char) : List String :=
  splitFrom sep [] s.data

/-! ## Purge executor (`lib/task/purge.go`) -/

/-- Modelled from the spec: `utils.PurgeEntryConfig`, whose declaration is not among the
source files; these are the fields `handlePurge` reads (target host, optional path-match
pattern, HTTP method, variant codes, URI templates, header templates). The header
map is a list of key/value pairs. -/
structure PurgeEntryConfig where
  Host : String
  PathMatch : String
  Method : String
  Variants : List String
  URIs : List String
  Headers : List (String × String)
deriving DecidableEq, Repr

/-- The `requestOptions` struct. -/
structure requestOptions where
  method : String
  url : String
  headers : List (String × String)
deriving DecidableEq, Repr

/-- What `handlePurge` reads of a parsed `*url.URL`: the fields `Host`, `Path`,
`RawQuery` and the value of the method `RequestURI()` (escaped path plus `?query`). -/
structure URL where
  Host : String
  Path : String
  RawQuery : String
  RequestURI : String
deriving DecidableEq, Repr

/-- The struct `purgeData` decoded by `Execute`: `meta.uri` and `meta.dt`. -/
structure purgeData where
  URI : String
  Date : Int
deriving DecidableEq, Repr

/-- Library functions called by the purge executor. -/
structure Env where
  /-- Value of `url.Parse`: `none` is a parse error. -/
  urlParse : String → Option URL
  /-- Value of `regexp.MatchString pattern s`: `none` is an invalid pattern. -/
  regexMatch : String → String → Option Bool
  /-- Value of `json.Unmarshal` into `purgeData`. -/
  unmarshal : String → Except String purgeData
  /-- Value of `date.Format(time.RFC3339)`. -/
  formatRFC3339 : Int → String
  /-- Value of `strings.ToLower`. -/
  toLower : String → String
  /-- Whether `http.NewRequestWithContext(ctx, method, url, nil)` succeeds. -/
  newRequestOk : String → String → Bool

/-- Order in which `for variant := range variants` visits the keys, for the entry
with index `i` and its template with index `j`, given the keys in canonical order. -/
abbrev MapOrder := Nat → Nat → List String → List String

/-- A map iteration visits every key exactly once. -/
def ValidOrder (ord : MapOrder) : Prop := ∀ i j l, (ord i j l).Perm l

/-- Lines 94-98: `lastQuery`, the last piece of `RawQuery` split at `&`. -/
def lastQuery (u : URL) : String :=
  let queries := Split u.RawQuery '&'
  if queries.length > 0 then queries.getLast?.getD "" else ""

/-- Lines 99-103: `firstPath`, the second piece of `Path` split at `/`. -/
def firstPath (u : URL) : String :=
  let pathComponents := Split u.Path '/'
  if pathComponents.length > 1 then pathComponents.getD 1 "" else ""

/-- Lines 119-123: the keys of the map `variants`, each once. -/
def variantKeys (entry : PurgeEntryConfig) : List String :=
  ("" :: entry.Variants).dedup

/-- The lookup `variants[x]` in the map of lines 119-123. -/
def variantsLookup (entry : PurgeEntryConfig) (x : String) : Bool :=
  decide (x ∈ "" :: entry.Variants)

/-- Lines 127-128: the condition of the `continue`. -/
def skipVariant (entry : PurgeEntryConfig) (u : URL) (variant : String) : Bool :=
  variant != "" && ((lastQuery u != "" && variantsLookup entry (lastQuery u)) ||
    (firstPath u != "" && variantsLookup entry (firstPath u)))

/-- Lines 131-135: the request appended for `(uri, variant)`. -/
def ordinaryRequest (entry : PurgeEntryConfig) (u : URL) (uri variant : String) :
    requestOptions :=
  { method := entry.Method
    url := ReplaceAll (ReplaceAll uri "#url#" u.RequestURI) "#variants#" variant
    headers := entry.Headers }

/-- Lines 138-142: the second request appended when `firstPath == "wiki"`. -/
def shortLinkRequest (entry : PurgeEntryConfig) (u : URL) (uri variant : String) :
    requestOptions :=
  { method := entry.Method
    url := ReplaceAll (ReplaceAll (ReplaceAll uri "#url#" u.RequestURI) "#variants#" "")
      "/wiki/" ("/" ++ variant ++ "/")
    headers := entry.Headers }

/-- Lines 127-143: what one pass of the inner loop body appends to `ros`. -/
def pairRequests (entry : PurgeEntryConfig) (u : URL) (uri variant : String) :
    List requestOptions :=
  if skipVariant entry u variant then []
  else
    ordinaryRequest entry u uri variant ::
      (if firstPath u = "wiki" ∧ variant ≠ "" then [shortLinkRequest entry u uri variant]
       else [])

/-- Lines 126-144: the loop over the map `variants`, in the order `keys`. -/
def variantLoop (entry : PurgeEntryConfig) (u : URL) (uri : String) :
    List String → List requestOptions
  | [] => []
  | variant :: rest => pairRequests entry u uri variant ++ variantLoop entry u uri rest

/-- Lines 125-145: the loop over `entry.URIs`; `j` is the index of the next template. -/
def uriLoop (ord : MapOrder) (i : Nat) (entry : PurgeEntryConfig) (u : URL) :
    Nat → List String → List requestOptions
  | _, [] => []
  | j, uri :: rest =>
    variantLoop entry u uri (ord i j (variantKeys entry)) ++ uriLoop ord i entry u (j + 1) rest

/-- Lines 106-118: whether the entry passes the host and path filters. -/
def entryMatches (env : Env) (entry : PurgeEntryConfig) (u : URL) : Bool :=
  if entry.Host ≠ u.Host then false
  else if entry.PathMatch ≠ "" then
    match env.regexMatch entry.PathMatch u.Path with
    | none => false
    | some m => m
  else true

/-- Lines 105-146: the loop over `t.entries`; `i` is the index of the next entry. -/
def entryLoop (env : Env) (ord : MapOrder) (u : URL) :
    Nat → List PurgeEntryConfig → List requestOptions
  | _, [] => []
  | i, entry :: rest =>
    (if entryMatches env entry u then uriLoop ord i entry u 0 entry.URIs else []) ++
      entryLoop env ord u (i + 1) rest

/-- Lines 89-146 of `handlePurge`: the slice `ros` before `uniq`; a URI that does not
parse gives no request. -/
def handlePurgeRos (env : Env) (ord : MapOrder) (entries : List PurgeEntryConfig)
    (item : String) : List requestOptions :=
  match env.urlParse item with
  | none => []
  | some u => entryLoop env ord u 0 entries

/-- The loop of `uniq`, with the set `seen` of URLs already kept. -/
def uniqFrom : List String → List requestOptions → List requestOptions
  | _, [] => []
  | seen, val :: rest =>
    if val.url ∈ seen then uniqFrom seen rest
    else val :: uniqFrom (val.url :: seen) rest

/-- The function `uniq`: keeps the first request of every URL. -/
def uniq (input : List requestOptions) : List requestOptions :=
  uniqFrom [] input

/-- What one call of `doRequest` does. -/
inductive RequestAction where
  /-- The method is `cloudflare`: `doCloudFlarePurge` with this URL. -/
  | cloudflare (url : String)
  /-- The request could not be built: a warning and the error. -/
  | invalid (method url : String)
  /-- The HTTP request sent: method, URL and the header values set, one per header
  template, listed in the order in which the templates are stored. -/
  | send (method url : String) (headers : List (String × String))
deriving DecidableEq, Repr

/-- Lines 174-178: the value set for one header template. -/
def headerValue (v rawURL dateStr : String) : String :=
  ReplaceAll (ReplaceAll v "#url#" rawURL) "#date#" dateStr

/-- Lines 163-178 of `doRequest`: the branch to the CDN call, the construction of the
request and the header values set on it. The `Host` override of lines 179-181 and the
handling of the response are not part of the action. -/
def doRequest (env : Env) (method url : String) (headers : List (String × String))
    (rawURL dateStr : String) : RequestAction :=
  if env.toLower method = "cloudflare" then RequestAction.cloudflare url
  else if env.newRequestOk method url then
    RequestAction.send method url (headers.map fun kv => (kv.1, headerValue kv.2 rawURL dateStr))
  else RequestAction.invalid method url

/-- The function `handlePurge`: the calls of `doRequest` it starts, one per request
that `uniq` keeps. -/
def handlePurge (env : Env) (ord : MapOrder) (entries : List PurgeEntryConfig)
    (item : String) (date : Int) : List RequestAction :=
  match env.urlParse item with
  | none => []
  | some _ =>
    (uniq (handlePurgeRos env ord entries item)).map fun ro =>
      doRequest env ro.method ro.url ro.headers item (env.formatRFC3339 date)

/-- The struct `PurgeExecutor`: the fields that decide which requests are made. -/
structure PurgeExecutor where
  expiry : Int
  entries : List PurgeEntryConfig

/-- What one call of `PurgeExecutor.Execute` does. -/
inductive PurgeOutcome where
  /-- The payload did not decode: the error is returned. -/
  | parseError (err : String)
  /-- The event is expired: `skip purge` is logged, `nil` is returned. -/
  | skipped (uri : String)
  /-- The function `handlePurge` ran with these requests, `nil` is returned. -/
  | purged (calls : List RequestAction)
deriving DecidableEq, Repr

/-- The error returned by `Execute`. -/
def PurgeOutcome.err : PurgeOutcome → Option String
  | PurgeOutcome.parseError e => some e
  | _ => none

/-- The requests issued by `Execute`. -/
def PurgeOutcome.requests : PurgeOutcome → List RequestAction
  | PurgeOutcome.purged calls => calls
  | _ => []

/-- The method `PurgeExecutor.Execute`; `now` is the value of `time.Now()`. -/
def PurgeExecutor.Execute (env : Env) (ord : MapOrder) (t : PurgeExecutor) (now : Int)
    (message : String) : PurgeOutcome :=
  match env.unmarshal message with
  | Except.error e => PurgeOutcome.parseError e
  | Except.ok msg =>
    if now > msg.Date + t.expiry then PurgeOutcome.skipped msg.URI
    else PurgeOutcome.purged (handlePurge env ord t.entries msg.URI msg.Date)

/-- A fixed instance of the library functions for evaluating the model: it knows the
parse of three URIs, accepts every request and formats no date. -/
def sampleEnv : Env where
  urlParse := fun s =>
    if s = "http://h/wiki/Foo?action=history" then
      some { Host := "h", Path := "/wiki/Foo", RawQuery := "action=history",
             RequestURI := "/wiki/Foo?action=history" }
    else if s = "http://h/wiki/a/wiki/b" then
      some { Host := "h", Path := "/wiki/a/wiki/b", RawQuery := "",
             RequestURI := "/wiki/a/wiki/b" }
    else if s = "http://h/zh/Foo" then
      some { Host := "h", Path := "/zh/Foo", RawQuery := "", RequestURI := "/zh/Foo" }
    else none
  regexMatch := fun _ _ => some true
  unmarshal := fun s => Except.ok { URI := s, Date := 1000 }
  formatRFC3339 := fun _ => "1970-01-01T00:00:00Z"
  toLower := fun s => s
  newRequestOk := fun _ _ => true

/-- The iteration order that visits the keys as stored. -/
def storedOrder : MapOrder := fun _ _ l => l

/-- An entry for host `h` with one template and the variants `zh` and `en`. -/
def sampleEntry : PurgeEntryConfig :=
  { Host := "h", PathMatch := "", Method := "PURGE", Variants := ["zh", "en"],
    URIs := ["http://h#url#"], Headers := [("X-Purge-URL", "#url#"), ("Date", "#date#")] }

/-- A component is a recognized variant code of the entry: it is not empty and it is
one of the entry's variant codes (the two tests of lines 127-128). -/
def IsVariantCode (entry : PurgeEntryConfig) (x : String) : Prop :=
  x ≠ "" ∧ x ∈ entry.Variants

instance IsVariantCode.decidable (entry : PurgeEntryConfig) (x : String) :
    Decidable (IsVariantCode entry x) :=
  inferInstanceAs (Decidable (x ≠ "" ∧ x ∈ entry.Variants))

/-- The request URI with only its leading short-link segment `/wiki/` rewritten to
`/variant/`, the rest unchanged. -/
def swapMarkerSegment (requestURI variant : String) : String :=
  if "/wiki/".data.isPrefixOf requestURI.data then
    String.mk (("/" ++ variant ++ "/").data ++ requestURI.data.drop 6)
  else requestURI

/-- The URL of the second request as the specification words it: the template with
`#url#` replaced by the request URI whose marker segment alone is rewritten, and
`#variants#` replaced by the empty string. -/
def markerOnlyURL (uri : String) (u : URL) (variant : String) : String :=
  ReplaceAll (ReplaceAll uri "#url#" (swapMarkerSegment u.RequestURI variant)) "#variants#" ""

/-- The parse of `http://h/wiki/a/wiki/b`. -/
def nestedWikiURL : URL :=
  { Host := "h", Path := "/wiki/a/wiki/b", RawQuery := "", RequestURI := "/wiki/a/wiki/b" }

/-- The parse of `http://h/wiki/Foo?action=history`. -/
def historyURL : URL :=
  { Host := "h", Path := "/wiki/Foo", RawQuery := "action=history",
    RequestURI := "/wiki/Foo?action=history" }

/-! ## Forwarding executor (`lib/task/job_runner.go`) -/

/-- One action of `retryExecute`: the `n`-th call of `doExecute` (counted from 0) or a
`time.Sleep` of `d` nanoseconds. -/
inductive RetryStep where
  | attempt (n : Nat)
  | sleep (d : Int)
deriving DecidableEq, Repr

/-- Reduction of an integer to the range of `int64` (two's complement). -/
def wrapInt64 (x : Int) : Int :=
  (x + 2 ^ 63) % 2 ^ 64 - 2 ^ 63

/-- The constant `time.Second`, in nanoseconds. -/
def second : Int := 1000000000

/-- The method `retryExecute`. The outcome of the `k`-th call of `doExecute` is
`doExecute k` (`none` is success, `some err` the error); `n` is the number of calls made
so far. The result is the returned error and the actions in order. The doubled wait is
reduced to `int64`; `times--` is not, it cannot overflow once `times` is above the
least `int64`. -/
def JobRunnerExecutor.retryExecute (doExecute : Nat → Option String) (n : Nat) (times : Int)
    (wait : Int) : Option String × List RetryStep :=
  match doExecute n with
  | some err =>
    if times - 1 > 0 then
      let r := JobRunnerExecutor.retryExecute doExecute (n + 1) (times - 1) (wrapInt64 (2 * wait))
      (r.1, RetryStep.attempt n :: RetryStep.sleep wait :: r.2)
    else (some err, [RetryStep.attempt n])
  | none => (none, [RetryStep.attempt n])
termination_by times.toNat
decreasing_by omega

/-- The method `JobRunnerExecutor.Execute`; `prepare` is the decoding of the payload,
the removal of the excluded fields and the encoding of the rest. -/
def JobRunnerExecutor.Execute (prepare : String → Except String String)
    (doExecute : Nat → Option String) (message : String) : Option String × List RetryStep :=
  match prepare message with
  | Except.error e => (some e, [])
  | Except.ok _ => JobRunnerExecutor.retryExecute doExecute 0 4 second

/-- The number of attempts among the first four that fail before the first success. -/
def leadingFailures (doExecute : Nat → Option String) : Nat :=
  ((List.range 4).takeWhile fun i => (doExecute i).isSome).length

/-- The actions of `k` attempts with a wait of `2 ^ i` seconds after attempt `i`,
except after the last one. -/
def backoffTrace (k : Nat) : List RetryStep :=
  (List.range k).flatMap fun i =>
    if i + 1 < k then [RetryStep.attempt i, RetryStep.sleep (2 ^ i * second)]
    else [RetryStep.attempt i]

/-! ## Metadata watcher (`lib/metadata_watcher.go`) -/

/-- The struct `MetadataWatcherEvent`; a nil slice is the empty list. -/
structure MetadataWatcherEvent where
  Topics : List String
  Err : Option String
deriving DecidableEq, Repr

/-- Lines 65-71 of `setup`: the inner loop that sets `exist`. -/
def topicExists (topic : String) : List String → Bool
  | [] => false
  | t :: rest => if topic = t then true else topicExists topic rest

/-- Lines 64-76 of `setup`: the outer loop that sets `added`. -/
def topicAdded (knownTopics : List String) : List String → Bool
  | [] => false
  | topic :: rest =>
    if !topicExists topic knownTopics then true else topicAdded knownTopics rest

/-- Lines 56-81 of `setup`: one tick of the refresh task. `listing` is the result of
`GetTopics`; the result is the new `knownTopics` and the calls of `emit`. -/
def refreshTick (knownTopics : List String) (listing : Except String (List String)) :
    List String × List MetadataWatcherEvent :=
  match listing with
  | Except.error err => (knownTopics, [{ Topics := [], Err := some err }])
  | Except.ok topics =>
    if topicAdded knownTopics topics then (topics, [{ Topics := topics, Err := none }])
    else (knownTopics, [])

/-! ## Subscription (`lib/basic_subscription.go`, `utils/brokers.go`) -/

/-- Go `unicode.IsSpace`. -/
def isSpace (c : Char) : Bool :=
  c.toNat ∈ [0x09, 0x0A, 0x0B, 0x0C, 0x0D, 0x20, 0x85, 0xA0, 0x1680, 0x2028, 0x2029, 0x202F,
    0x205F, 0x3000] || (0x2000 ≤ c.toNat && c.toNat ≤ 0x200A)

/-- Go `strings.TrimSpace`. -/
def TrimSpace (s : String) : String :=
  String.mk ((s.data.dropWhile isSpace).reverse.dropWhile isSpace).reverse

/-- The function `utils.SplitBrokers`: the non-empty trimmed pieces of a
comma-separated list. -/
def SplitBrokers (brokerList : String) : List String :=
  ((Split brokerList ',').map TrimSpace).filter fun broker => broker != ""

/-- Modelled from the spec: `utils.RuleConfig`, whose declaration is not among the source
files;
these are the fields the subscription reads (name, task-type tag, rate-limit count
and interval in milliseconds, both Go integers). -/
structure RuleConfig where
  Name : String
  TaskType : String
  RateLimit : Int
  RateInterval : Int
deriving DecidableEq, Repr

/-- Modelled from the spec: `SubscriptionConfig`, whose declaration is not among the source
files;
the broker list and the consumer-group prefix are the fields `Subscribe` reads. -/
structure SubscriptionConfig where
  BrokerList : String
  GroupIDPrefix : String
deriving DecidableEq, Repr

/-- The `kafka.ReaderConfig` that `Subscribe` fills in. -/
structure ReaderConfig where
  Brokers : List String
  GroupID : String
  GroupTopics : List String
  StartOffset : Int
deriving DecidableEq, Repr

/-- The constant `kafka.FirstOffset`. -/
def FirstOffset : Int := -2

/-- The call `rate.NewLimiter(limit, burst)` of line 53. The limit is the float64
quotient `float64(RateLimit) / interval.Seconds()`; the structure records the two
operands of that quotient, the count `tokens` and the interval `nanos` in nanoseconds,
and not the rounded float64 value. -/
structure Limiter where
  tokens : Int
  nanos : Int
  burst : Int
deriving DecidableEq, Repr

/-- The cancel function stored by `Subscribe`: that of the context the processing loop
runs under. -/
inductive CancelFunc where
  | loopContext
deriving DecidableEq, Repr

/-- The struct `BasicSubscription` without its mutex; a nil pointer is `none`. -/
structure BasicSubscription where
  config : SubscriptionConfig
  rule : RuleConfig
  reader : Option ReaderConfig
  subscribed : Bool
  cancel : Option CancelFunc
  limiter : Option Limiter
deriving DecidableEq, Repr

/-- The calls `Subscribe` and `Unsubscribe` make on the log transport and on the
processing loop. -/
inductive SubEffect where
  /-- Constructor `kafka.NewReader`: a consumer-group reader is opened. -/
  | newReader (cfg : ReaderConfig)
  /-- Statement `go sub.consume(ctx)`: a processing loop is started. -/
  | startConsume
  /-- Call `sub.cancel()`. -/
  | cancelContext
  /-- Call `sub.reader.Close()`. -/
  | closeReader (cfg : ReaderConfig)
deriving DecidableEq, Repr

/-- Lines 39-45 of `Subscribe`: the configuration handed to `kafka.NewReader`;
`ruleTopics` is the function of that name, whose declaration is not among the source
files. -/
def BasicSubscription.readerConfig (ruleTopics : RuleConfig → List String)
    (sub : BasicSubscription) : ReaderConfig :=
  { Brokers := SplitBrokers sub.config.BrokerList
    GroupID := sub.config.GroupIDPrefix ++ sub.rule.Name
    GroupTopics := ruleTopics sub.rule
    StartOffset := FirstOffset }

/-- The method `BasicSubscription.Subscribe`. The library constructor `kafka.NewReader`
panics on a configuration it rejects (an empty broker list, a consumer group without
topics); `newReaderOk` says whether it returns. The result is `none` when the call
panics in `kafka.NewReader`, before any field is written, and otherwise the
subscription afterwards, the calls made and the returned error. -/
def BasicSubscription.Subscribe (newReaderOk : ReaderConfig → Bool)
    (ruleTopics : RuleConfig → List String) (sub : BasicSubscription) :
    Option (BasicSubscription × List SubEffect × Option String) :=
  if sub.subscribed then some (sub, [], none)
  else
    let cfg := sub.readerConfig ruleTopics
    if !newReaderOk cfg then none
    else
      let sub1 := { sub with reader := some cfg, subscribed := true }
      let sub2 :=
        if sub1.rule.RateLimit > 0 then
          let rule :=
            if sub1.rule.RateInterval = 0 then { sub1.rule with RateInterval := 1000 }
            else sub1.rule
          let interval := wrapInt64 (rule.RateInterval * 1000000)
          { sub1 with
            rule := rule
            limiter :=
              some { tokens := rule.RateLimit, nanos := interval, burst := rule.RateLimit } }
        else sub1
      some ({ sub2 with cancel := some CancelFunc.loopContext },
        [SubEffect.newReader cfg, SubEffect.startConsume], none)

/-- The method `BasicSubscription.Unsubscribe`: the subscription afterwards and the
calls made. -/
def BasicSubscription.Unsubscribe (sub : BasicSubscription) :
    BasicSubscription × List SubEffect :=
  if !sub.subscribed then (sub, [])
  else
    let sub1 := { sub with subscribed := false }
    let r1 : BasicSubscription × List SubEffect :=
      match sub1.cancel with
      | some _ => ({ sub1 with cancel := none }, [SubEffect.cancelContext])
      | none => (sub1, [])
    let r2 : BasicSubscription × List SubEffect :=
      match r1.1.reader with
      | some cfg => ({ r1.1 with reader := none }, [SubEffect.closeReader cfg])
      | none => (r1.1, [])
    (r2.1, r1.2 ++ r2.2)

/-- Whether a call opens a reader. -/
def SubEffect.isNewReader : SubEffect → Bool
  | SubEffect.newReader _ => true
  | _ => false

/-- Whether a call starts a processing loop. -/
def SubEffect.isStartConsume : SubEffect → Bool
  | SubEffect.startConsume => true
  | _ => false

/-- Whether a call closes a reader. -/
def SubEffect.isCloseReader : SubEffect → Bool
  | SubEffect.closeReader _ => true
  | _ => false

/-- A `kafka.Message`: its position in the log and its payload. -/
structure Message where
  Topic : String
  Partition : Int
  Offset : Int
  Value : String
deriving DecidableEq, Repr

/-- The error of a call that takes the loop's context: none, `context.Canceled`, or
any other error. -/
inductive CtxError where
  | ok
  | canceled
  | failed
deriving DecidableEq, Repr

/-- The result of `sub.reader.FetchMessage(ctx)`: an event, the error
`context.Canceled`, or any other error. -/
inductive FetchResult where
  | message (msg : Message)
  | canceled
  | failed
deriving DecidableEq, Repr

/-- What the transport, the limiter and the executor answer during one pass of the
loop of `consume`: the result of `FetchMessage`, of `limiter.Wait`, of
`executor.Execute` and of `CommitMessages`. An answer the pass does not ask for is
not read. -/
structure Round where
  fetch : FetchResult
  wait : CtxError
  execute : Option String
  commit : CtxError
deriving Repr

/-- The calls of one run of `consume`, in order. -/
inductive ConsumeEvent where
  /-- Call `slog.Warn` with this message. -/
  | warn (what : String)
  /-- Call `executor.Execute(ctx, msg.Value)` in `handleMessage`. -/
  | dispatch (m : Message)
  /-- Call `sub.reader.CommitMessages(ctx, msg)`. -/
  | commit (m : Message)
deriving DecidableEq, Repr

/-- The method `handleMessage`: the executor is called once, an error is logged. -/
def BasicSubscription.handleMessage (m : Message) (result : Option String) :
    List ConsumeEvent :=
  ConsumeEvent.dispatch m ::
    (match result with
     | some _ => [ConsumeEvent.warn "execute message error"]
     | none => [])

/-- The method `consume` run against the answers `rounds`, one per pass of the loop;
`limited` says whether `sub.limiter` is set. The run ends when the loop returns or
when the answers are used up (the loop is then blocked in the next fetch). -/
def BasicSubscription.consume (limited : Bool) : List Round → List ConsumeEvent
  | [] => []
  | r :: rest =>
    match r.fetch with
    | FetchResult.canceled => []
    | FetchResult.failed =>
      ConsumeEvent.warn "consume message error" :: BasicSubscription.consume limited rest
    | FetchResult.message msg =>
      if limited && r.wait == CtxError.canceled then []
      else if limited && r.wait == CtxError.failed then
        ConsumeEvent.warn "rate limit wait error" :: BasicSubscription.consume limited rest
      else
        BasicSubscription.handleMessage msg r.execute ++
          ConsumeEvent.commit msg ::
            (match r.commit with
             | CtxError.canceled => []
             | CtxError.failed =>
               ConsumeEvent.warn "commit message error" ::
                 BasicSubscription.consume limited rest
             | CtxError.ok => BasicSubscription.consume limited rest)

/-- The dispatches and commits of a run, without the log lines. -/
def deliveries (events : List ConsumeEvent) : List ConsumeEvent :=
  events.filter fun e =>
    match e with
    | ConsumeEvent.warn _ => false
    | _ => true

/-- The fetched event of a pass that is not stopped at the limiter: `FetchMessage`
returned an event and, when a limiter is set, `Wait` returned no error. -/
def Round.admitted (limited : Bool) (r : Round) : Option Message :=
  match r.fetch with
  | FetchResult.message msg => if limited && r.wait != CtxError.ok then none else some msg
  | _ => none

/-- Whether the loop returns during this pass: the context is cancelled in the fetch,
in the limiter wait or in the commit. -/
def Round.returns (limited : Bool) (r : Round) : Bool :=
  match r.fetch with
  | FetchResult.canceled => true
  | FetchResult.failed => false
  | FetchResult.message _ =>
    if limited && r.wait != CtxError.ok then r.wait == CtxError.canceled
    else r.commit == CtxError.canceled

/-- The passes of the loop that are run: all of them up to and including the first in
which the loop returns. -/
def passesRun (limited : Bool) : List Round → List Round
  | [] => []
  | r :: rest => if r.returns limited then [r] else r :: passesRun limited rest

/-- A subscription that was never subscribed, for a rule limited to two events per
second. -/
def sampleSubscription : BasicSubscription :=
  { config := { BrokerList := "k1:9092, k2:9092", GroupIDPrefix := "timburr-" }
    rule := { Name := "purge", TaskType := "purge", RateLimit := 2, RateInterval := 0 }
    reader := none, subscribed := false, cancel := none, limiter := none }

/-- The topics of the sample rule. -/
def sampleTopics : RuleConfig → List String := fun _ => ["mediawiki.purge"]

/-- The checks of `kafka.NewReader` that the configuration of `Subscribe` can fail: the
broker list is not empty, and the consumer group has a name and at least one topic. -/
def sampleReaderOk : ReaderConfig → Bool := fun cfg =>
  !cfg.Brokers.isEmpty && cfg.GroupID != "" && !cfg.GroupTopics.isEmpty

/-- The sample subscription without any broker. -/
def brokerlessSubscription : BasicSubscription :=
  { sampleSubscription with config := { BrokerList := " , ", GroupIDPrefix := "timburr-" } }

/-! ## Token bucket (`golang.org/x/time/rate`) -/

/-- The limiter that `Subscribe` builds for the sample subscription: two tokens per
second, burst two. -/
def sampleLimiter : Limiter :=
  { tokens := 2, nanos := 1000000000, burst := 2 }

/-- The iteration order that visits the keys in the reverse of the stored order. -/
def reversedOrder : MapOrder := fun _ _ l => l.reverse

/-- An entry applies to a URI, in the words of the specification: its host is the host
of the URI and its path pattern, when set, matches the path of the URI. -/
def EntryApplies (env : Env) (entry : PurgeEntryConfig) (u : URL) : Prop :=
  entry.Host = u.Host ∧
    (entry.PathMatch = "" ∨ env.regexMatch entry.PathMatch u.Path = some true)

instance EntryApplies.decidable (env : Env) (entry : PurgeEntryConfig) (u : URL) :
    Decidable (EntryApplies env entry u) :=
  inferInstanceAs (Decidable (entry.Host = u.Host ∧
    (entry.PathMatch = "" ∨ env.regexMatch entry.PathMatch u.Path = some true)))

/-- The variant set of an entry, in the words of the specification: the empty string
plus every variant code configured on the entry, each value once. -/
def variantSet (entry : PurgeEntryConfig) : List String :=
  ("" :: entry.Variants).dedup

/-- The requests of one template and one variant value, in the words of the
specification: none when the variant is not empty and the last query component or the
first path segment is a recognized variant code; otherwise the request with the
entry's method and header templates whose URL is the template with `#url#` replaced by
the request URI and `#variants#` by the variant value, followed, when the first path
segment is `wiki` and the variant is not empty, by the second request of lines
138-142. -/
def expectedPair (entry : PurgeEntryConfig) (u : URL) (t v : String) : List requestOptions :=
  if v ≠ "" ∧ (IsVariantCode entry (lastQuery u) ∨ IsVariantCode entry (firstPath u)) then []
  else
    { method := entry.Method
      url := ReplaceAll (ReplaceAll t "#url#" u.RequestURI) "#variants#" v
      headers := entry.Headers } ::
      (if firstPath u = "wiki" ∧ v ≠ "" then [shortLinkRequest entry u t v] else [])

/-- The request list of an event, in the words of the specification: the requests of
every template and every value of the variant set of every entry that applies. -/
def expectedRos (env : Env) (entries : List PurgeEntryConfig) (u : URL) :
    List requestOptions :=
  (entries.filter fun entry => decide (EntryApplies env entry u)).flatMap fun entry =>
    entry.URIs.flatMap fun t => (variantSet entry).flatMap fun v => expectedPair entry u t v

/-- The parse of `http://h/index.php?title=Foo&zh`, whose last query component is the
variant code `zh`. -/
def queryVariantURL : URL :=
  { Host := "h", Path := "/index.php", RawQuery := "title=Foo&zh",
    RequestURI := "/index.php?title=Foo&zh" }

/-- The sample library functions, knowing also the parse of
`http://h/index.php?title=Foo&zh`. -/
def queryEnv : Env :=
  { sampleEnv with
    urlParse := fun s =>
      if s = "http://h/index.php?title=Foo&zh" then some queryVariantURL
      else sampleEnv.urlParse s }

/-- An entry for host `h` whose template names the variant: variants `zh` and `en`. -/
def cacheEntry : PurgeEntryConfig :=
  { Host := "h", PathMatch := "", Method := "PURGE", Variants := ["zh", "en"],
    URIs := ["http://cache/#variants##url#"], Headers := [] }

/-- The sample subscription after `Subscribe` has returned: the interval is set to its
default, the reader, the cancel function and the limiter are in place. -/
def subscribedSample : BasicSubscription :=
  { config := { BrokerList := "k1:9092, k2:9092", GroupIDPrefix := "timburr-" }
    rule := { Name := "purge", TaskType := "purge", RateLimit := 2, RateInterval := 1000 }
    reader := some { Brokers := ["k1:9092", "k2:9092"], GroupID := "timburr-purge",
                     GroupTopics := ["mediawiki.purge"], StartOffset := -2 }
    subscribed := true
    cancel := some CancelFunc.loopContext
    limiter := some sampleLimiter }

-- ==== end of definitions ====

/-! ## Theorems -/

/-! ### Membership in the nested loops -/

theorem pairRequests_sub_variantLoop (entry : PurgeEntryConfig) (u : URL) (uri : String)
    (keys : List String) (v : String) (hv : v ∈ keys) (r : requestOptions)
    (hr : r ∈ pairRequests entry u uri v) : r ∈ variantLoop entry u uri keys := by
  induction keys with
  | nil => cases hv
  | cons k rest ih =>
    simp only [variantLoop, List.mem_append]
    rcases List.mem_cons.mp hv with h | h
    · left; rw [← h]; exact hr
    · right; exact ih h

theorem variantLoop_sub_uriLoop (ord : MapOrder) (i : Nat) (entry : PurgeEntryConfig) (u : URL)
    (uris : List String) (t : String) (ht : t ∈ uris) (j : Nat) :
    ∃ k, ∀ r, r ∈ variantLoop entry u t (ord i k (variantKeys entry)) →
      r ∈ uriLoop ord i entry u j uris := by
  induction uris generalizing j with
  | nil => cases ht
  | cons x rest ih =>
    rcases List.mem_cons.mp ht with h | h
    · refine ⟨j, fun r hr => ?_⟩
      simp only [uriLoop, List.mem_append]
      left; rw [← h]; exact hr
    · obtain ⟨k, hk⟩ := ih h (j + 1)
      refine ⟨k, fun r hr => ?_⟩
      simp only [uriLoop, List.mem_append]
      right; exact hk r hr

theorem uriLoop_sub_entryLoop (env : Env) (ord : MapOrder) (u : URL)
    (entries : List PurgeEntryConfig) (entry : PurgeEntryConfig) (he : entry ∈ entries)
    (hm : entryMatches env entry u = true) (i : Nat) :
    ∃ k, ∀ r, r ∈ uriLoop ord k entry u 0 entry.URIs → r ∈ entryLoop env ord u i entries := by
  induction entries generalizing i with
  | nil => cases he
  | cons x rest ih =>
    rcases List.mem_cons.mp he with h | h
    · refine ⟨i, fun r hr => ?_⟩
      simp only [entryLoop, List.mem_append]
      left; rw [← h, if_pos hm]; exact hr
    · obtain ⟨k, hk⟩ := ih h (i + 1)
      refine ⟨k, fun r hr => ?_⟩
      simp only [entryLoop, List.mem_append]
      right; exact hk r hr

theorem mem_order_variantKeys (ord : MapOrder) (hord : ValidOrder ord) (i j : Nat)
    (entry : PurgeEntryConfig) (v : String) :
    v ∈ ord i j (variantKeys entry) ↔ v = "" ∨ v ∈ entry.Variants := by
  rw [(hord i j (variantKeys entry)).mem_iff]
  simp [variantKeys]

/-- Every request of a pair `(t, v)` of a matching entry is in `ros`. -/
theorem pairRequests_sub_ros (env : Env) (ord : MapOrder) (hord : ValidOrder ord)
    (entries : List PurgeEntryConfig) (item : String) (u : URL)
    (hu : env.urlParse item = some u) (entry : PurgeEntryConfig) (he : entry ∈ entries)
    (hm : entryMatches env entry u = true) (t : String) (ht : t ∈ entry.URIs) (v : String)
    (hv : v = "" ∨ v ∈ entry.Variants) (r : requestOptions)
    (hr : r ∈ pairRequests entry u t v) : r ∈ handlePurgeRos env ord entries item := by
  obtain ⟨i, hi⟩ := uriLoop_sub_entryLoop env ord u entries entry he hm 0
  obtain ⟨j, hj⟩ := variantLoop_sub_uriLoop ord i entry u entry.URIs t ht 0
  simp only [handlePurgeRos, hu]
  apply hi; apply hj
  exact pairRequests_sub_variantLoop entry u t _ v
    ((mem_order_variantKeys ord hord i j entry v).mpr hv) r hr

theorem entryMatches_of (env : Env) (entry : PurgeEntryConfig) (u : URL)
    (hhost : entry.Host = u.Host)
    (hpath : entry.PathMatch = "" ∨ env.regexMatch entry.PathMatch u.Path = some true) :
    entryMatches env entry u = true := by
  unfold entryMatches
  rw [if_neg (not_not.mpr hhost)]
  by_cases hp : entry.PathMatch = ""
  · rw [if_neg (not_not.mpr hp)]
  · rw [if_pos hp]
    rcases hpath with h | h
    · exact absurd h hp
    · rw [h]

theorem skipVariant_eq_true_iff (entry : PurgeEntryConfig) (u : URL) (v : String) :
    skipVariant entry u v = true ↔
      v ≠ "" ∧ (IsVariantCode entry (lastQuery u) ∨ IsVariantCode entry (firstPath u)) := by
  simp only [skipVariant, variantsLookup, IsVariantCode, Bool.and_eq_true, Bool.or_eq_true,
    bne_iff_ne, decide_eq_true_eq, List.mem_cons]
  constructor
  · rintro ⟨h1, h2 | h2⟩
    · exact ⟨h1, Or.inl ⟨h2.1, h2.2.resolve_left h2.1⟩⟩
    · exact ⟨h1, Or.inr ⟨h2.1, h2.2.resolve_left h2.1⟩⟩
  · rintro ⟨h1, h2 | h2⟩
    · exact ⟨h1, Or.inl ⟨h2.1, Or.inr h2.2⟩⟩
    · exact ⟨h1, Or.inr ⟨h2.1, Or.inr h2.2⟩⟩

/-- C2: at the event URI `http://h/wiki/a/wiki/b`, the sample entry and the variant `zh`
(first path segment `wiki`, pair not skipped) the second request that the code appends
has the URL `http://h/zh/a/zh/b`: the `ReplaceAll` of line 140 rewrites the `/wiki/`
inside the page name as well as the marker segment. The URL in which only the marker
segment is rewritten, `http://h/zh/a/wiki/b`, is the URL of no request of `ros`. -/
theorem C2_nested_wiki_rewrite :
    sampleEnv.urlParse "http://h/wiki/a/wiki/b" = some nestedWikiURL ∧
    firstPath nestedWikiURL = "wiki" ∧
    entryMatches sampleEnv sampleEntry nestedWikiURL = true ∧
    skipVariant sampleEntry nestedWikiURL "zh" = false ∧
    markerOnlyURL "http://h#url#" nestedWikiURL "zh" = "http://h/zh/a/wiki/b" ∧
    (shortLinkRequest sampleEntry nestedWikiURL "http://h#url#" "zh").url = "http://h/zh/a/zh/b" ∧
    ∀ r ∈ handlePurgeRos sampleEnv storedOrder [sampleEntry] "http://h/wiki/a/wiki/b",
      r.url ≠ markerOnlyURL "http://h#url#" nestedWikiURL "zh" := by
  decide

/-! ### `uniq` -/

theorem uniqFrom_sublist (seen : List String) (l : List requestOptions) :
    (uniqFrom seen l).Sublist l := by
  induction l generalizing seen with
  | nil => exact List.Sublist.refl _
  | cons val rest ih =>
    unfold uniqFrom
    split
    · exact (ih seen).cons val
    · exact (ih (val.url :: seen)).cons₂ val

theorem uniqFrom_url_not_seen (seen : List String) (l : List requestOptions)
    (r : requestOptions) (hr : r ∈ uniqFrom seen l) : r.url ∉ seen := by
  induction l generalizing seen with
  | nil => simp [uniqFrom] at hr
  | cons val rest ih =>
    unfold uniqFrom at hr
    split at hr
    · exact ih seen hr
    · rename_i hn
      rcases List.mem_cons.mp hr with h | h
      · rw [h]; exact hn
      · exact fun hs => ih (val.url :: seen) h (List.mem_cons_of_mem _ hs)

theorem uniqFrom_nodup (seen : List String) (l : List requestOptions) :
    ((uniqFrom seen l).map requestOptions.url).Nodup := by
  induction l generalizing seen with
  | nil => simp [uniqFrom]
  | cons val rest ih =>
    unfold uniqFrom
    split
    · exact ih seen
    · rw [List.map_cons, List.nodup_cons]
      refine ⟨?_, ih (val.url :: seen)⟩
      intro hmem
      obtain ⟨r, hr, hurl⟩ := List.mem_map.mp hmem
      exact uniqFrom_url_not_seen (val.url :: seen) rest r hr (by rw [hurl]; simp)

theorem uniqFrom_find (seen : List String) (l : List requestOptions) (x : String)
    (hx : x ∉ seen) :
    (uniqFrom seen l).find? (fun r => decide (r.url = x)) =
      l.find? (fun r => decide (r.url = x)) := by
  induction l generalizing seen with
  | nil => simp [uniqFrom]
  | cons val rest ih =>
    unfold uniqFrom
    by_cases hv : val.url = x
    · have hns : val.url ∉ seen := by rw [hv]; exact hx
      rw [if_neg hns]
      simp [List.find?, hv]
    · by_cases hs : val.url ∈ seen
      · rw [if_pos hs, ih seen hx]
        simp [List.find?, hv]
      · rw [if_neg hs]
        have hx2 : x ∉ val.url :: seen := by
          simp only [List.mem_cons, not_or]
          exact ⟨fun h => hv h.symm, hx⟩
        simp only [List.find?, hv, decide_False]
        exact ih (val.url :: seen) hx2

/-- C3: the result of `uniq` is a subsequence of the input, no two of its requests
have the same URL, every URL of the input occurs exactly once among its URLs, and for
every URL the request it keeps is the first request of the input with that URL. -/
theorem C3_uniq_first_occurrence (input : List requestOptions) :
    (uniq input).Sublist input ∧
    ((uniq input).map requestOptions.url).Nodup ∧
    (∀ r ∈ input, ((uniq input).map requestOptions.url).count r.url = 1) ∧
    (∀ x : String, (uniq input).find? (fun r => decide (r.url = x)) =
      input.find? (fun r => decide (r.url = x))) := by
  have hfind : ∀ x : String, (uniq input).find? (fun r => decide (r.url = x)) =
      input.find? (fun r => decide (r.url = x)) :=
    fun x => uniqFrom_find [] input x (List.not_mem_nil x)
  refine ⟨uniqFrom_sublist [] input, uniqFrom_nodup [] input, ?_, hfind⟩
  intro r hr
  apply List.count_eq_one_of_mem (uniqFrom_nodup [] input)
  have h1 : (input.find? (fun q => decide (q.url = r.url))).isSome = true := by
    rw [List.find?_isSome]
    exact ⟨r, hr, by simp⟩
  rw [← hfind r.url, List.find?_isSome] at h1
  obtain ⟨q, hq, hqu⟩ := h1
  exact List.mem_map.mpr ⟨q, hq, by simpa using hqu⟩

/-! ### `PurgeExecutor.Execute` -/

/-- C4: for a payload that decodes to an event with timestamp `dt`, every expiry and
every current time `now`: `Execute` takes the skip branch exactly when
`now > dt + expiry`, then it returns no error and issues no request; when
`now ≤ dt + expiry` it runs `handlePurge` on the event and returns no error. -/
theorem C4_staleness_check (env : Env) (ord : MapOrder) (t : PurgeExecutor) (now : Int)
    (message : String) (msg : purgeData) (hmsg : env.unmarshal message = Except.ok msg) :
    (t.Execute env ord now message = PurgeOutcome.skipped msg.URI ↔
      now > msg.Date + t.expiry) ∧
    (now > msg.Date + t.expiry →
      (t.Execute env ord now message).err = none ∧
      (t.Execute env ord now message).requests = []) ∧
    (now ≤ msg.Date + t.expiry →
      t.Execute env ord now message =
        PurgeOutcome.purged (handlePurge env ord t.entries msg.URI msg.Date) ∧
      (t.Execute env ord now message).err = none ∧
      (t.Execute env ord now message).requests =
        handlePurge env ord t.entries msg.URI msg.Date) := by
  unfold PurgeExecutor.Execute
  rw [hmsg]
  by_cases h : now > msg.Date + t.expiry
  · simp [h, PurgeOutcome.err, PurgeOutcome.requests]
  · have h2 : now ≤ msg.Date + t.expiry := not_lt.mp h
    simp [h, h2, PurgeOutcome.err, PurgeOutcome.requests]

/-- C4 at the boundary `now = dt + expiry` (1500 = 1000 + 500): the event is purged. -/
theorem C4_staleness_check_witness :
    PurgeExecutor.Execute sampleEnv storedOrder { expiry := 500, entries := [sampleEntry] } 1500
        "http://h/zh/Foo" =
      PurgeOutcome.purged (handlePurge sampleEnv storedOrder [sampleEntry] "http://h/zh/Foo" 1000) :=
  ((C4_staleness_check sampleEnv storedOrder { expiry := 500, entries := [sampleEntry] } 1500
    "http://h/zh/Foo" { URI := "http://h/zh/Foo", Date := 1000 } rfl).2.2 (by decide)).1

/-! ### Header templates -/

theorem variantLoop_fields (entry : PurgeEntryConfig) (u : URL) (uri : String)
    (keys : List String) (r : requestOptions) (hr : r ∈ variantLoop entry u uri keys) :
    r.method = entry.Method ∧ r.headers = entry.Headers := by
  induction keys with
  | nil => simp [variantLoop] at hr
  | cons k rest ih =>
    simp only [variantLoop, List.mem_append] at hr
    rcases hr with h | h
    · unfold pairRequests at h
      split at h
      · simp at h
      · split at h
        · simp only [List.mem_cons, List.mem_singleton, List.not_mem_nil, or_false] at h
          rcases h with h | h <;> rw [h] <;> exact ⟨rfl, rfl⟩
        · simp only [List.mem_singleton] at h
          rw [h]; exact ⟨rfl, rfl⟩
    · exact ih h

theorem uriLoop_fields (ord : MapOrder) (i : Nat) (entry : PurgeEntryConfig) (u : URL)
    (uris : List String) (j : Nat) (r : requestOptions)
    (hr : r ∈ uriLoop ord i entry u j uris) :
    r.method = entry.Method ∧ r.headers = entry.Headers := by
  induction uris generalizing j with
  | nil => simp [uriLoop] at hr
  | cons x rest ih =>
    simp only [uriLoop, List.mem_append] at hr
    rcases hr with h | h
    · exact variantLoop_fields entry u x _ r h
    · exact ih (j + 1) h

theorem entryLoop_fields (env : Env) (ord : MapOrder) (u : URL)
    (entries : List PurgeEntryConfig) (i : Nat) (r : requestOptions)
    (hr : r ∈ entryLoop env ord u i entries) :
    ∃ entry ∈ entries, r.method = entry.Method ∧ r.headers = entry.Headers := by
  induction entries generalizing i with
  | nil => simp [entryLoop] at hr
  | cons x rest ih =>
    simp only [entryLoop, List.mem_append] at hr
    rcases hr with h | h
    · split at h
      · exact ⟨x, List.mem_cons_self _ _, uriLoop_fields ord i x u x.URIs 0 r h⟩
      · simp at h
    · obtain ⟨e, he, hf⟩ := ih (i + 1) h
      exact ⟨e, List.mem_cons_of_mem _ he, hf⟩

/-- C7 as stated fails: for the event URI `http://h/wiki/Foo?action=history` the value
substituted for `#url#` in the URI templates is the request URI
`/wiki/Foo?action=history`, while the header template `#url#` is sent as the whole
event URI `http://h/wiki/Foo?action=history`. -/
theorem C7_header_url_counterexample :
    sampleEnv.urlParse "http://h/wiki/Foo?action=history" = some historyURL ∧
    historyURL.RequestURI = "/wiki/Foo?action=history" ∧
    handlePurge sampleEnv storedOrder
        [{ sampleEntry with Variants := [], Headers := [("X-Purge-URL", "#url#")] }]
        "http://h/wiki/Foo?action=history" 1000 =
      [RequestAction.send "PURGE" "http://h/wiki/Foo?action=history"
        [("X-Purge-URL", "http://h/wiki/Foo?action=history")]] ∧
    headerValue "#url#" historyURL.RequestURI (sampleEnv.formatRFC3339 1000) ≠
      "http://h/wiki/Foo?action=history" := by
  decide

/-- C7, amended: every generic HTTP request that `handlePurge` sends carries the header
templates of one configured entry, and each header value is the template with every
`#url#` replaced by the event URI as received (the argument `item`, not its request
path and query) and then every `#date#` replaced by the formatted event timestamp. -/
theorem C7_header_substitution (env : Env) (ord : MapOrder) (entries : List PurgeEntryConfig)
    (item : String) (date : Int) (method url : String) (headers : List (String × String))
    (h : RequestAction.send method url headers ∈ handlePurge env ord entries item date) :
    ∃ entry ∈ entries, method = entry.Method ∧
      headers = entry.Headers.map fun kv =>
        (kv.1, ReplaceAll (ReplaceAll kv.2 "#url#" item) "#date#" (env.formatRFC3339 date)) := by
  unfold handlePurge at h
  split at h
  · simp at h
  · rename_i u hu
    obtain ⟨ro, hro, hact⟩ := List.mem_map.mp h
    have hmem : ro ∈ handlePurgeRos env ord entries item :=
      (uniqFrom_sublist [] _).subset hro
    simp only [handlePurgeRos, hu] at hmem
    obtain ⟨entry, he, hmeth, hhead⟩ := entryLoop_fields env ord u entries 0 ro hmem
    refine ⟨entry, he, ?_⟩
    unfold doRequest at hact
    split at hact
    · cases hact
    · split at hact
      · injection hact with h1 h2 h3
        refine ⟨by rw [← h1, hmeth], ?_⟩
        rw [← h3, hhead]
        rfl
      · cases hact

/-- C7 (amended) at the event URI `http://h/zh/Foo` and the sample entry. -/
theorem C7_header_substitution_witness :
    RequestAction.send "PURGE" "http://h/zh/Foo"
        [("X-Purge-URL", "http://h/zh/Foo"), ("Date", "1970-01-01T00:00:00Z")] ∈
      handlePurge sampleEnv storedOrder [sampleEntry] "http://h/zh/Foo" 1000 ∧
    ∃ entry ∈ [sampleEntry], "PURGE" = entry.Method ∧
      [("X-Purge-URL", "http://h/zh/Foo"), ("Date", "1970-01-01T00:00:00Z")] =
        entry.Headers.map fun kv =>
          (kv.1, ReplaceAll (ReplaceAll kv.2 "#url#" "http://h/zh/Foo") "#date#"
            (sampleEnv.formatRFC3339 1000)) :=
  ⟨by decide,
   C7_header_substitution sampleEnv storedOrder [sampleEntry] "http://h/zh/Foo" 1000 "PURGE"
     "http://h/zh/Foo" [("X-Purge-URL", "http://h/zh/Foo"), ("Date", "1970-01-01T00:00:00Z")]
     (by decide)⟩

/-! ### `retryExecute` -/

theorem retryExecute_success (doExecute : Nat → Option String) (n : Nat) (times wait : Int)
    (h : doExecute n = none) :
    JobRunnerExecutor.retryExecute doExecute n times wait = (none, [RetryStep.attempt n]) := by
  rw [JobRunnerExecutor.retryExecute, h]

theorem retryExecute_last (doExecute : Nat → Option String) (n : Nat) (times wait : Int)
    (err : String) (h : doExecute n = some err) (ht : ¬ times - 1 > 0) :
    JobRunnerExecutor.retryExecute doExecute n times wait =
      (some err, [RetryStep.attempt n]) := by
  rw [JobRunnerExecutor.retryExecute, h]
  simp only [if_neg ht]

theorem retryExecute_retry (doExecute : Nat → Option String) (n : Nat) (times wait : Int)
    (err : String) (h : doExecute n = some err) (ht : times - 1 > 0) :
    JobRunnerExecutor.retryExecute doExecute n times wait =
      ((JobRunnerExecutor.retryExecute doExecute (n + 1) (times - 1) (wrapInt64 (2 * wait))).1,
        RetryStep.attempt n :: RetryStep.sleep wait ::
          (JobRunnerExecutor.retryExecute doExecute (n + 1) (times - 1)
            (wrapInt64 (2 * wait))).2) := by
  rw [JobRunnerExecutor.retryExecute, h]
  simp only [if_pos ht]

/-- The result and the actions of `retryExecute` started with `times = 4` and a wait
of one second. -/
theorem retryExecute_four (doExecute : Nat → Option String) :
    (JobRunnerExecutor.retryExecute doExecute 0 4 second).2 =
      backoffTrace (min (leadingFailures doExecute + 1) 4) ∧
    ((JobRunnerExecutor.retryExecute doExecute 0 4 second).1 = none ↔
      ∃ i, i < 4 ∧ doExecute i = none) ∧
    ((∀ i, i < 4 → doExecute i ≠ none) →
      (JobRunnerExecutor.retryExecute doExecute 0 4 second).1 = doExecute 3) := by
  have hr : List.range 4 = [0, 1, 2, 3] := by decide
  have w1 : wrapInt64 (2 * second) = 2000000000 := by decide
  have w2 : wrapInt64 (2 * 2000000000) = 4000000000 := by decide
  have key : ∀ i, i < 4 → (i = 0 ∨ i = 1 ∨ i = 2 ∨ i = 3) := by omega
  cases h0 : doExecute 0 with
  | none =>
    rw [retryExecute_success doExecute 0 4 second h0]
    refine ⟨?_, ?_, ?_⟩
    · have hf : leadingFailures doExecute = 0 := by
        simp [leadingFailures, hr, List.takeWhile, h0]
      rw [hf]; decide
    · simp only [true_iff]; exact ⟨0, by omega, h0⟩
    · intro hall; exact absurd h0 (hall 0 (by omega))
  | some e0 =>
    rw [retryExecute_retry doExecute 0 4 second e0 h0 (by decide), w1]
    cases h1 : doExecute 1 with
    | none =>
      rw [retryExecute_success doExecute (0 + 1) (4 - 1) 2000000000 h1]
      refine ⟨?_, ?_, ?_⟩
      · have hf : leadingFailures doExecute = 1 := by
          simp [leadingFailures, hr, List.takeWhile, h0, h1]
        rw [hf]; decide
      · simp only [true_iff]; exact ⟨1, by omega, h1⟩
      · intro hall; exact absurd h1 (hall 1 (by omega))
    | some e1 =>
      rw [retryExecute_retry doExecute (0 + 1) (4 - 1) 2000000000 e1 h1 (by decide), w2]
      cases h2 : doExecute 2 with
      | none =>
        rw [retryExecute_success doExecute (0 + 1 + 1) (4 - 1 - 1) 4000000000 h2]
        refine ⟨?_, ?_, ?_⟩
        · have hf : leadingFailures doExecute = 2 := by
            simp [leadingFailures, hr, List.takeWhile, h0, h1, h2]
          rw [hf]; decide
        · simp only [true_iff]; exact ⟨2, by omega, h2⟩
        · intro hall; exact absurd h2 (hall 2 (by omega))
      | some e2 =>
        rw [retryExecute_retry doExecute (0 + 1 + 1) (4 - 1 - 1) 4000000000 e2 h2 (by decide)]
        cases h3 : doExecute 3 with
        | none =>
          rw [retryExecute_success doExecute (0 + 1 + 1 + 1) (4 - 1 - 1 - 1) _ h3]
          refine ⟨?_, ?_, ?_⟩
          · have hf : leadingFailures doExecute = 3 := by
              simp [leadingFailures, hr, List.takeWhile, h0, h1, h2, h3]
            rw [hf]; decide
          · simp only [true_iff]; exact ⟨3, by omega, h3⟩
          · intro hall; exact absurd h3 (hall 3 (by omega))
        | some e3 =>
          rw [retryExecute_last doExecute (0 + 1 + 1 + 1) (4 - 1 - 1 - 1) _ e3 h3 (by decide)]
          refine ⟨?_, ?_, ?_⟩
          · have hf : leadingFailures doExecute = 4 := by
              simp [leadingFailures, hr, List.takeWhile, h0, h1, h2, h3]
            have hb : backoffTrace 4 =
                [RetryStep.attempt 0, RetryStep.sleep second, RetryStep.attempt 1,
                  RetryStep.sleep 2000000000, RetryStep.attempt 2,
                  RetryStep.sleep 4000000000, RetryStep.attempt 3] := by decide
            rw [hf]
            exact hb.symm
          · constructor
            · intro h; cases h
            · rintro ⟨i, hi, hn⟩
              rcases key i hi with h | h | h | h <;> rw [h] at hn <;>
                simp [h0, h1, h2, h3] at hn
          · intro _; rfl

/-! ### Metadata watcher -/

theorem topicExists_iff (topic : String) (known : List String) :
    topicExists topic known = true ↔ topic ∈ known := by
  induction known with
  | nil => simp [topicExists]
  | cons t rest ih =>
    unfold topicExists
    by_cases h : topic = t
    · simp [h]
    · simp [h, ih]

theorem topicAdded_iff (known topics : List String) :
    topicAdded known topics = true ↔ ∃ t, t ∈ topics ∧ t ∉ known := by
  induction topics with
  | nil => simp [topicAdded]
  | cons t rest ih =>
    unfold topicAdded
    by_cases h : topicExists t known = true
    · have hk := (topicExists_iff t known).mp h
      simp only [h, Bool.not_true, Bool.false_eq_true, if_false, ih, List.mem_cons]
      constructor
      · rintro ⟨x, hx, hn⟩; exact ⟨x, Or.inr hx, hn⟩
      · rintro ⟨x, hx | hx, hn⟩
        · rw [hx] at hn; exact absurd hk hn
        · exact ⟨x, hx, hn⟩
    · have hk : t ∉ known := fun hm => h ((topicExists_iff t known).mpr hm)
      have hf : topicExists t known = false := by simpa using h
      simp only [hf, Bool.not_false, if_true, true_iff]
      exact ⟨t, List.mem_cons_self _ _, hk⟩

/-- C6: for every known topic list `K` and every successfully listed topic list `T`: if
some topic of `T` is not in `K`, one event is emitted, it carries the whole list `T`
and no error, and the known list becomes `T`; if every topic of `T` is in `K`, no event
is emitted and the known list stays `K`. -/
theorem C6_presence_only_diff (K T : List String) :
    ((∃ t, t ∈ T ∧ t ∉ K) →
      refreshTick K (Except.ok T) = (T, [{ Topics := T, Err := none }])) ∧
    ((∀ t, t ∈ T → t ∈ K) → refreshTick K (Except.ok T) = (K, [])) := by
  constructor
  · intro h
    have ha : topicAdded K T = true := (topicAdded_iff K T).mpr h
    simp only [refreshTick, ha, if_true]
  · intro h
    have ha : ¬ topicAdded K T = true := by
      rw [topicAdded_iff]
      rintro ⟨t, ht, hn⟩
      exact hn (h t ht)
    simp only [refreshTick, if_neg ha]

/-- C6 with one addition (`c` is new) and with one removal (`b` is gone). -/
theorem C6_presence_only_diff_witness :
    refreshTick ["a", "b"] (Except.ok ["a", "b", "c"]) =
      (["a", "b", "c"], [{ Topics := ["a", "b", "c"], Err := none }]) ∧
    refreshTick ["a", "b"] (Except.ok ["a"]) = (["a", "b"], []) :=
  ⟨(C6_presence_only_diff ["a", "b"] ["a", "b", "c"]).1 ⟨"c", by decide, by decide⟩,
   (C6_presence_only_diff ["a", "b"] ["a"]).2 (by decide)⟩

/-- C5: `Execute`, once the payload is prepared, calls `retryExecute` with `times = 4`
and a wait of one second, and that call returns for every sequence of attempt
outcomes. With `f` the number of leading failures among the first four attempts, it
makes `min (f + 1) 4` attempts (up to the first success, never more than four), sleeps
`2 ^ i` seconds after the failed attempt `i` (1s, 2s, 4s) and not after the last
attempt, returns success exactly when one of the first four attempts succeeds, and
returns the error of the fourth attempt when all four fail. -/
theorem C5_bounded_retry (prepare : String → Except String String)
    (doExecute : Nat → Option String) (message rb : String)
    (hp : prepare message = Except.ok rb) :
    (JobRunnerExecutor.Execute prepare doExecute message).2 =
      backoffTrace (min (leadingFailures doExecute + 1) 4) ∧
    ((JobRunnerExecutor.Execute prepare doExecute message).1 = none ↔
      ∃ i, i < 4 ∧ doExecute i = none) ∧
    ((∀ i, i < 4 → doExecute i ≠ none) →
      (JobRunnerExecutor.Execute prepare doExecute message).1 = doExecute 3) := by
  have h : JobRunnerExecutor.Execute prepare doExecute message =
      JobRunnerExecutor.retryExecute doExecute 0 4 second := by
    simp only [JobRunnerExecutor.Execute, hp]
  rw [h]
  exact retryExecute_four doExecute

/-- C5 for an endpoint that fails three times and then succeeds: four attempts, waits of
one, two and four seconds, success. -/
theorem C5_bounded_retry_witness :
    (JobRunnerExecutor.Execute (fun s => Except.ok s)
        (fun k => if k < 3 then some "502" else none) "job").2 =
      [RetryStep.attempt 0, RetryStep.sleep 1000000000, RetryStep.attempt 1,
        RetryStep.sleep 2000000000, RetryStep.attempt 2, RetryStep.sleep 4000000000,
        RetryStep.attempt 3] ∧
    (JobRunnerExecutor.Execute (fun s => Except.ok s)
        (fun k => if k < 3 then some "502" else none) "job").1 = none :=
  ⟨(C5_bounded_retry (fun s => Except.ok s) (fun k => if k < 3 then some "502" else none)
      "job" "job" rfl).1.trans (by decide),
   (C5_bounded_retry (fun s => Except.ok s) (fun k => if k < 3 then some "502" else none)
      "job" "job" rfl).2.1.mpr ⟨3, by decide, by decide⟩⟩

/-! ### Processing loop -/

theorem deliveries_append (a b : List ConsumeEvent) :
    deliveries (a ++ b) = deliveries a ++ deliveries b := by
  simp [deliveries]

theorem deliveries_handleMessage (m : Message) (result : Option String) :
    deliveries (BasicSubscription.handleMessage m result) = [ConsumeEvent.dispatch m] := by
  cases result <;> simp [BasicSubscription.handleMessage, deliveries]

/-- The dispatches and commits of a run: one dispatch followed by one commit for every
admitted event of the passes that are run, in the order of the passes. -/
theorem consume_deliveries (limited : Bool) (rounds : List Round) :
    deliveries (BasicSubscription.consume limited rounds) =
      ((passesRun limited rounds).filterMap (Round.admitted limited)).flatMap
        fun m => [ConsumeEvent.dispatch m, ConsumeEvent.commit m] := by
  induction rounds with
  | nil => simp [BasicSubscription.consume, passesRun, deliveries]
  | cons r rest ih =>
    obtain ⟨fetch, wait, execute, commit⟩ := r
    cases fetch with
    | canceled =>
      simp [BasicSubscription.consume, passesRun, Round.returns, Round.admitted, deliveries]
    | failed =>
      have h1 : deliveries (ConsumeEvent.warn "consume message error" ::
          BasicSubscription.consume limited rest) =
          deliveries (BasicSubscription.consume limited rest) := by
        simp [deliveries]
      simp only [BasicSubscription.consume, passesRun, Round.returns, h1, ih]
      simp [Round.admitted]
    | message msg =>
      have hw : ∀ (w : String) (l : List ConsumeEvent),
          deliveries (ConsumeEvent.warn w :: l) = deliveries l := by
        intro w l; simp [deliveries]
      have hc : ∀ l : List ConsumeEvent,
          deliveries (ConsumeEvent.commit msg :: l) = ConsumeEvent.commit msg :: deliveries l := by
        intro l; simp [deliveries]
      cases limited <;> cases wait <;> cases commit <;>
        simp [BasicSubscription.consume, passesRun, Round.returns, Round.admitted,
          deliveries_append, deliveries_handleMessage, hw, hc, ih] <;>
        simp [deliveries]

theorem passesRun_execute (limited : Bool) (f : Round → Option String) (rounds : List Round) :
    (passesRun limited (rounds.map fun r => { r with execute := f r })).filterMap
        (Round.admitted limited) =
      (passesRun limited rounds).filterMap (Round.admitted limited) := by
  induction rounds with
  | nil => rfl
  | cons r rest ih =>
    have hr : Round.returns limited { r with execute := f r } = Round.returns limited r := rfl
    have ha : Round.admitted limited { r with execute := f r } = Round.admitted limited r := rfl
    simp only [List.map_cons, passesRun, hr]
    by_cases h : Round.returns limited r = true
    · rw [if_pos h, if_pos h]
      simp only [List.filterMap_cons, ha, List.filterMap_nil]
    · rw [if_neg h, if_neg h]
      simp only [List.filterMap_cons, ha, ih]

/-- C8: in every run of `consume`, the dispatches and commits are exactly one dispatch
followed by one commit for every fetched event that is not stopped at the limiter, in
fetch order, over all passes that are run; they stay the same when the executor's
results are replaced by any others (an executor error skips no commit, repeats no
dispatch and does not end the loop); and a pass in which the loop returns is one in
which the context is cancelled, whatever the executor returned. -/
theorem C8_dispatch_then_commit (limited : Bool) (rounds : List Round) :
    deliveries (BasicSubscription.consume limited rounds) =
      ((passesRun limited rounds).filterMap (Round.admitted limited)).flatMap
        (fun m => [ConsumeEvent.dispatch m, ConsumeEvent.commit m]) ∧
    (∀ f : Round → Option String,
      deliveries (BasicSubscription.consume limited
          (rounds.map fun r => { r with execute := f r })) =
        deliveries (BasicSubscription.consume limited rounds)) ∧
    (∀ r, r ∈ rounds → Round.returns limited r = true →
      r.fetch = FetchResult.canceled ∨ r.wait = CtxError.canceled ∨
        r.commit = CtxError.canceled) := by
  refine ⟨consume_deliveries limited rounds, ?_, ?_⟩
  · intro f
    rw [consume_deliveries, consume_deliveries, passesRun_execute]
  · intro r _ h
    obtain ⟨fetch, wait, execute, commit⟩ := r
    cases fetch <;> cases limited <;> cases wait <;> cases commit <;>
      simp [Round.returns] at h ⊢

/-- C8 for two events whose executor fails, with a limiter: both are dispatched once
and committed once, in fetch order. -/
theorem C8_dispatch_then_commit_witness :
    deliveries (BasicSubscription.consume true
        [{ fetch := FetchResult.message { Topic := "t", Partition := 0, Offset := 7, Value := "a" },
           wait := CtxError.ok, execute := some "boom", commit := CtxError.ok },
         { fetch := FetchResult.message { Topic := "t", Partition := 0, Offset := 8, Value := "b" },
           wait := CtxError.ok, execute := some "boom", commit := CtxError.failed }]) =
      [ConsumeEvent.dispatch { Topic := "t", Partition := 0, Offset := 7, Value := "a" },
       ConsumeEvent.commit { Topic := "t", Partition := 0, Offset := 7, Value := "a" },
       ConsumeEvent.dispatch { Topic := "t", Partition := 0, Offset := 8, Value := "b" },
       ConsumeEvent.commit { Topic := "t", Partition := 0, Offset := 8, Value := "b" }] :=
  (C8_dispatch_then_commit true _).1.trans (by decide)

/-! ### Token bucket -/

theorem variantLoop_eq_flatMap (entry : PurgeEntryConfig) (u : URL) (uri : String)
    (keys : List String) :
    variantLoop entry u uri keys = keys.flatMap (pairRequests entry u uri) := by
  induction keys with
  | nil => rfl
  | cons k rest ih => simp only [variantLoop, List.flatMap_cons, ih]

theorem uriLoop_perm (ord1 ord2 : MapOrder) (h1 : ValidOrder ord1) (h2 : ValidOrder ord2)
    (i : Nat) (entry : PurgeEntryConfig) (u : URL) (uris : List String) (j : Nat) :
    (uriLoop ord1 i entry u j uris).Perm (uriLoop ord2 i entry u j uris) := by
  induction uris generalizing j with
  | nil => exact List.Perm.refl _
  | cons uri rest ih =>
    simp only [uriLoop, variantLoop_eq_flatMap]
    have hk : (ord1 i j (variantKeys entry)).Perm (ord2 i j (variantKeys entry)) :=
      (h1 i j _).trans (h2 i j _).symm
    exact (hk.flatMap_right _).append (ih (j + 1))

/-- In a list whose requests all have the same method and headers, the first request
with a given URL is decided by whether the URL occurs at all. -/
theorem find_url_of_uniform (blk : List requestOptions) (m : String)
    (hs : List (String × String))
    (hu : ∀ r ∈ blk, r.method = m ∧ r.headers = hs) (x : String) :
    blk.find? (fun r => decide (r.url = x)) =
      if x ∈ blk.map requestOptions.url then some { method := m, url := x, headers := hs }
      else none := by
  by_cases hx : x ∈ blk.map requestOptions.url
  · rw [if_pos hx]
    cases hf : blk.find? (fun r => decide (r.url = x)) with
    | none =>
      rw [List.find?_eq_none] at hf
      obtain ⟨r, hr, hru⟩ := List.mem_map.mp hx
      exact absurd (by simpa using hru) (hf r hr)
    | some r =>
      have hmem := List.mem_of_find?_eq_some hf
      have hurl : r.url = x := by simpa using List.find?_some hf
      obtain ⟨hm, hh⟩ := hu r hmem
      cases r
      simp only at hurl hm hh
      rw [hurl, hm, hh]
  · rw [if_neg hx, List.find?_eq_none]
    intro r hr hru
    exact hx (List.mem_map.mpr ⟨r, hr, by simpa using hru⟩)

theorem find_url_perm (a b : List requestOptions) (hp : a.Perm b) (m : String)
    (hs : List (String × String))
    (hu : ∀ r ∈ a, r.method = m ∧ r.headers = hs) (x : String) :
    a.find? (fun r => decide (r.url = x)) = b.find? (fun r => decide (r.url = x)) := by
  have hub : ∀ r ∈ b, r.method = m ∧ r.headers = hs := fun r hr => hu r (hp.mem_iff.mpr hr)
  rw [find_url_of_uniform a m hs hu x, find_url_of_uniform b m hs hub x]
  have hmem : x ∈ a.map requestOptions.url ↔ x ∈ b.map requestOptions.url :=
    (hp.map requestOptions.url).mem_iff
  by_cases hx : x ∈ a.map requestOptions.url
  · rw [if_pos hx, if_pos (hmem.mp hx)]
  · rw [if_neg hx, if_neg (fun h => hx (hmem.mpr h))]

theorem entryLoop_find (env : Env) (ord1 ord2 : MapOrder) (h1 : ValidOrder ord1)
    (h2 : ValidOrder ord2) (u : URL) (entries : List PurgeEntryConfig) (i : Nat) (x : String) :
    (entryLoop env ord1 u i entries).find? (fun r => decide (r.url = x)) =
      (entryLoop env ord2 u i entries).find? (fun r => decide (r.url = x)) := by
  induction entries generalizing i with
  | nil => rfl
  | cons entry rest ih =>
    simp only [entryLoop, List.find?_append, ih (i + 1)]
    by_cases hm : entryMatches env entry u = true
    · rw [if_pos hm, if_pos hm,
        find_url_perm _ _ (uriLoop_perm ord1 ord2 h1 h2 i entry u entry.URIs 0) entry.Method
          entry.Headers (fun r hr => uriLoop_fields ord1 i entry u entry.URIs 0 r hr) x]
    · rw [if_neg hm, if_neg hm]

theorem mem_uniq_iff (l : List requestOptions) (r : requestOptions) :
    r ∈ uniq l ↔ l.find? (fun q => decide (q.url = r.url)) = some r := by
  rw [← uniqFrom_find [] l r.url (List.not_mem_nil _)]
  constructor
  · intro hr
    cases hf : (uniqFrom [] l).find? (fun q => decide (q.url = r.url)) with
    | none =>
      rw [List.find?_eq_none] at hf
      exact absurd (by simp) (hf r hr)
    | some q =>
      have hq := List.mem_of_find?_eq_some hf
      have hqu : q.url = r.url := by simpa using List.find?_some hf
      have hinj := List.inj_on_of_nodup_map (uniqFrom_nodup [] l) hq hr hqu
      rw [hinj]
  · intro hf
    exact List.mem_of_find?_eq_some hf

/-- C11: for every event URI and every list of purge entries, any two iteration orders
of the variant maps, chosen independently per entry and per template, leave the same
requests (method, URL, headers) after `uniq`: a request is kept under one order exactly
when it is kept under the other, the two deduplicated lists are permutations of each
other, and so are the lists of `doRequest` calls made for them. -/
theorem C11_order_independence (env : Env) (ord1 ord2 : MapOrder) (h1 : ValidOrder ord1)
    (h2 : ValidOrder ord2) (entries : List PurgeEntryConfig) (item : String) (date : Int) :
    (∀ r, r ∈ uniq (handlePurgeRos env ord1 entries item) ↔
      r ∈ uniq (handlePurgeRos env ord2 entries item)) ∧
    (uniq (handlePurgeRos env ord1 entries item)).Perm
      (uniq (handlePurgeRos env ord2 entries item)) ∧
    (handlePurge env ord1 entries item date).Perm (handlePurge env ord2 entries item date) := by
  have hfind : ∀ x : String,
      (handlePurgeRos env ord1 entries item).find? (fun r => decide (r.url = x)) =
        (handlePurgeRos env ord2 entries item).find? (fun r => decide (r.url = x)) := by
    intro x
    unfold handlePurgeRos
    cases env.urlParse item with
    | none => rfl
    | some u => exact entryLoop_find env ord1 ord2 h1 h2 u entries 0 x
  have hmem : ∀ r, r ∈ uniq (handlePurgeRos env ord1 entries item) ↔
      r ∈ uniq (handlePurgeRos env ord2 entries item) := by
    intro r
    rw [mem_uniq_iff, mem_uniq_iff, hfind]
  have hperm : (uniq (handlePurgeRos env ord1 entries item)).Perm
      (uniq (handlePurgeRos env ord2 entries item)) :=
    (List.perm_ext_iff_of_nodup (List.Nodup.of_map _ (uniqFrom_nodup [] _))
      (List.Nodup.of_map _ (uniqFrom_nodup [] _))).mpr hmem
  refine ⟨hmem, hperm, ?_⟩
  unfold handlePurge
  cases env.urlParse item with
  | none => exact List.Perm.refl _
  | some u => exact hperm.map _

/-- C11 at `http://h/wiki/Foo?action=history` and the sample entry, for the stored and
the reversed order of the variants: the kept requests come in different positions and
are the same requests. -/
theorem C11_order_independence_witness :
    uniq (handlePurgeRos sampleEnv storedOrder [sampleEntry]
        "http://h/wiki/Foo?action=history") ≠
      uniq (handlePurgeRos sampleEnv reversedOrder [sampleEntry]
        "http://h/wiki/Foo?action=history") ∧
    (uniq (handlePurgeRos sampleEnv storedOrder [sampleEntry]
        "http://h/wiki/Foo?action=history")).Perm
      (uniq (handlePurgeRos sampleEnv reversedOrder [sampleEntry]
        "http://h/wiki/Foo?action=history")) :=
  ⟨by decide,
   (C11_order_independence sampleEnv storedOrder reversedOrder
      (fun _ _ _ => List.Perm.refl _) (fun _ _ l => List.reverse_perm l) [sampleEntry]
      "http://h/wiki/Foo?action=history" 1000).2.1⟩

/-! ### The request list of `handlePurge` -/

theorem splitFrom_no_sep (sep : Char) (cs : List Char) :
    ∀ acc : List Char, sep ∉ cs → splitFrom sep acc cs = [String.mk (acc.reverse ++ cs)] := by
  induction cs with
  | nil => intro acc _; simp [splitFrom]
  | cons c rest ih =>
    intro acc h
    have hc : c ≠ sep := fun e => h (by rw [e]; exact List.mem_cons_self _ _)
    have hr : sep ∉ rest := fun e => h (List.mem_cons_of_mem _ e)
    rw [splitFrom, if_neg hc, ih (c :: acc) hr]
    simp

theorem splitFrom_at_sep (sep : Char) (a tail : List Char) :
    ∀ acc : List Char, sep ∉ a →
      splitFrom sep acc (a ++ sep :: tail) =
        String.mk (acc.reverse ++ a) :: splitFrom sep [] tail := by
  induction a with
  | nil => intro acc _; simp [splitFrom]
  | cons c rest ih =>
    intro acc h
    have hc : c ≠ sep := fun e => h (by rw [e]; exact List.mem_cons_self _ _)
    have hr : sep ∉ rest := fun e => h (List.mem_cons_of_mem _ e)
    rw [List.cons_append, splitFrom, if_neg hc, ih (c :: acc) hr]
    simp

theorem splitFrom_getLast (sep : Char) (pre q : List Char) (hq : sep ∉ q) :
    ∀ acc : List Char,
      (splitFrom sep acc (pre ++ sep :: q)).getLast? = some (String.mk q) := by
  induction pre with
  | nil =>
    intro acc
    rw [List.nil_append, splitFrom, if_pos rfl, splitFrom_no_sep sep q [] hq]
    simp
  | cons c rest ih =>
    intro acc
    rw [List.cons_append, splitFrom]
    by_cases hc : c = sep
    · rw [if_pos hc, List.getLast?_cons, ih []]
      rfl
    · rw [if_neg hc]
      exact ih (c :: acc)

/-- The value of `lastQuery`: the whole query when it has no `&`, else what follows its
last `&`. -/
theorem lastQuery_spec (u : URL) :
    ('&' ∉ u.RawQuery.data → lastQuery u = u.RawQuery) ∧
    (∀ pre q : List Char, u.RawQuery.data = pre ++ '&' :: q → '&' ∉ q →
      lastQuery u = String.mk q) := by
  constructor
  · intro h
    simp [lastQuery, Split, splitFrom_no_sep '&' u.RawQuery.data [] h]
  · intro pre q he hq
    have hl := splitFrom_getLast '&' pre q hq []
    have hne : 0 < (splitFrom '&' [] (pre ++ '&' :: q)).length := by
      cases hs : splitFrom '&' [] (pre ++ '&' :: q) with
      | nil => rw [hs] at hl; simp at hl
      | cons x xs => simp
    simp only [lastQuery, Split, he, gt_iff_lt, hne, if_true, hl, Option.getD_some]

/-- The value of `firstPath`: empty when the path has no `/`, else what stands between
its first `/` and the next `/` or the end. -/
theorem firstPath_spec (u : URL) :
    ('/' ∉ u.Path.data → firstPath u = "") ∧
    (∀ a b : List Char, u.Path.data = a ++ '/' :: b → '/' ∉ a → '/' ∉ b →
      firstPath u = String.mk b) ∧
    (∀ a b rest : List Char, u.Path.data = a ++ '/' :: (b ++ '/' :: rest) → '/' ∉ a →
      '/' ∉ b → firstPath u = String.mk b) := by
  refine ⟨?_, ?_, ?_⟩
  · intro h
    simp [firstPath, Split, splitFrom_no_sep '/' u.Path.data [] h]
  · intro a b he ha hb
    simp [firstPath, Split, he, splitFrom_at_sep '/' a b [] ha, splitFrom_no_sep '/' b [] hb]
  · intro a b rest he ha hb
    simp [firstPath, Split, he, splitFrom_at_sep '/' a (b ++ '/' :: rest) [] ha,
      splitFrom_at_sep '/' b rest [] hb]

theorem entryMatches_iff (env : Env) (entry : PurgeEntryConfig) (u : URL) :
    entryMatches env entry u = true ↔ EntryApplies env entry u := by
  constructor
  · intro h
    unfold entryMatches at h
    by_cases hh : entry.Host = u.Host
    · rw [if_neg (not_not.mpr hh)] at h
      refine ⟨hh, ?_⟩
      by_cases hp : entry.PathMatch = ""
      · exact Or.inl hp
      · rw [if_pos hp] at h
        right
        cases hr : env.regexMatch entry.PathMatch u.Path with
        | none => rw [hr] at h; cases h
        | some m => rw [hr] at h; simp only at h; rw [h]
    · rw [if_pos hh] at h; cases h
  · intro h
    exact entryMatches_of env entry u h.1 h.2

theorem pairRequests_eq_expectedPair (entry : PurgeEntryConfig) (u : URL) (t v : String) :
    pairRequests entry u t v = expectedPair entry u t v := by
  unfold pairRequests expectedPair
  by_cases hs : skipVariant entry u v = true
  · rw [if_pos hs, if_pos ((skipVariant_eq_true_iff entry u v).mp hs)]
  · rw [if_neg hs, if_neg (fun h => hs ((skipVariant_eq_true_iff entry u v).mpr h))]
    rfl

theorem uriLoop_perm_expected (ord : MapOrder) (hord : ValidOrder ord) (i : Nat)
    (entry : PurgeEntryConfig) (u : URL) (uris : List String) :
    ∀ j : Nat, (uriLoop ord i entry u j uris).Perm
      (uris.flatMap fun t => (variantSet entry).flatMap fun v => expectedPair entry u t v) := by
  induction uris with
  | nil => intro j; exact List.Perm.refl _
  | cons uri rest ih =>
    intro j
    have hf : pairRequests entry u uri = fun v => expectedPair entry u uri v :=
      funext fun v => pairRequests_eq_expectedPair entry u uri v
    have h1 : (variantLoop entry u uri (ord i j (variantKeys entry))).Perm
        ((variantSet entry).flatMap fun v => expectedPair entry u uri v) := by
      rw [variantLoop_eq_flatMap, hf]
      exact (hord i j (variantKeys entry)).flatMap_right _
    simp only [uriLoop, List.flatMap_cons]
    exact h1.append (ih (j + 1))

theorem entryLoop_perm_expected (env : Env) (ord : MapOrder) (hord : ValidOrder ord) (u : URL)
    (entries : List PurgeEntryConfig) :
    ∀ i : Nat, (entryLoop env ord u i entries).Perm (expectedRos env entries u) := by
  induction entries with
  | nil => intro i; exact List.Perm.refl _
  | cons entry rest ih =>
    intro i
    unfold expectedRos at ih ⊢
    by_cases hm : entryMatches env entry u = true
    · have ha : decide (EntryApplies env entry u) = true :=
        decide_eq_true ((entryMatches_iff env entry u).mp hm)
      rw [entryLoop, if_pos hm]
      simp only [List.filter_cons, ha, if_true, List.flatMap_cons]
      exact (uriLoop_perm_expected ord hord i entry u entry.URIs 0).append (ih (i + 1))
    · have ha : decide (EntryApplies env entry u) = false :=
        decide_eq_false (fun h => hm ((entryMatches_iff env entry u).mpr h))
      rw [entryLoop, if_neg hm]
      simp only [List.filter_cons, ha, Bool.false_eq_true, if_false, List.nil_append]
      exact ih (i + 1)

theorem flatMap_only_empty (f : String → List requestOptions) (l : List String) :
    l.Nodup → "" ∈ l → (∀ v ∈ l, v ≠ "" → f v = []) → l.flatMap f = f "" := by
  induction l with
  | nil => intro _ h; cases h
  | cons a rest ih =>
    intro hn hm hf
    have hn2 := List.nodup_cons.mp hn
    by_cases ha : a = ""
    · have hrest : rest.flatMap f = [] := by
        rw [List.flatMap_eq_nil_iff]
        intro v hv
        apply hf v (List.mem_cons_of_mem _ hv)
        intro hv0
        rw [hv0, ← ha] at hv
        exact hn2.1 hv
      rw [List.flatMap_cons, hrest, ha, List.append_nil]
    · have hin : "" ∈ rest := by
        rcases List.mem_cons.mp hm with h | h
        · exact absurd h.symm ha
        · exact h
      rw [List.flatMap_cons, hf a (List.mem_cons_self _ _) ha, List.nil_append]
      exact ih hn2.2 hin (fun v hv => hf v (List.mem_cons_of_mem _ hv))

/-- C1: for a URI that parses to `u`. The last query component is what follows the last
`&` of the query (the whole query without `&`), the first path segment is what stands
between the first `/` of the path and the next. The slice `ros` before `uniq` is, up to
the order of the map iteration, the list of the requests of every template and every
value of the variant set (the empty string and the variant codes) of every entry whose
host is the host of `u` and whose path pattern, when set, matches its path. For such
an entry, a template `t` and a variant value `v`: if `v` is empty, or neither component
is a recognized variant code, `ros` contains the request with the entry's method and
header templates whose URL is `t` with `#url#` replaced by the request URI and then
`#variants#` by `v`; if `v` is not empty and one of the components is a recognized
variant code, the pair `(t, v)` has no request in that list, and all values of the
variant set together have exactly the one request of the empty variant. -/
theorem C1_purge_requests (env : Env) (ord : MapOrder) (hord : ValidOrder ord)
    (entries : List PurgeEntryConfig) (item : String) (u : URL)
    (hu : env.urlParse item = some u) :
    (('&' ∉ u.RawQuery.data → lastQuery u = u.RawQuery) ∧
      (∀ pre q : List Char, u.RawQuery.data = pre ++ '&' :: q → '&' ∉ q →
        lastQuery u = String.mk q)) ∧
    (('/' ∉ u.Path.data → firstPath u = "") ∧
      (∀ a b : List Char, u.Path.data = a ++ '/' :: b → '/' ∉ a → '/' ∉ b →
        firstPath u = String.mk b) ∧
      (∀ a b rest : List Char, u.Path.data = a ++ '/' :: (b ++ '/' :: rest) → '/' ∉ a →
        '/' ∉ b → firstPath u = String.mk b)) ∧
    (handlePurgeRos env ord entries item).Perm (expectedRos env entries u) ∧
    (∀ entry, entry ∈ entries → entry.Host = u.Host →
      (entry.PathMatch = "" ∨ env.regexMatch entry.PathMatch u.Path = some true) →
      ∀ t, t ∈ entry.URIs → ∀ v, (v = "" ∨ v ∈ entry.Variants) →
        ((v = "" ∨
            (¬ IsVariantCode entry (lastQuery u) ∧ ¬ IsVariantCode entry (firstPath u))) →
          ({ method := entry.Method
             url := ReplaceAll (ReplaceAll t "#url#" u.RequestURI) "#variants#" v
             headers := entry.Headers } : requestOptions) ∈
            handlePurgeRos env ord entries item) ∧
        ((v ≠ "" ∧
            (IsVariantCode entry (lastQuery u) ∨ IsVariantCode entry (firstPath u))) →
          expectedPair entry u t v = [] ∧
          ((variantSet entry).flatMap fun w => expectedPair entry u t w) =
            [{ method := entry.Method
               url := ReplaceAll (ReplaceAll t "#url#" u.RequestURI) "#variants#" ""
               headers := entry.Headers }])) := by
  refine ⟨lastQuery_spec u, firstPath_spec u, ?_, ?_⟩
  · simp only [handlePurgeRos, hu]
    exact entryLoop_perm_expected env ord hord u entries 0
  · intro entry he hhost hpath t ht v hv
    constructor
    · intro h
      have hs : ¬ skipVariant entry u v = true := by
        rw [skipVariant_eq_true_iff]
        rintro ⟨h1, h2⟩
        rcases h with h | h
        · exact h1 h
        · rcases h2 with h2 | h2
          · exact h.1 h2
          · exact h.2 h2
      apply pairRequests_sub_ros env ord hord entries item u hu entry he
        (entryMatches_of env entry u hhost hpath) t ht v hv
      simp only [pairRequests, if_neg hs, ordinaryRequest, List.mem_cons, true_or]
    · intro h
      have hempty : ∀ w, w ≠ "" → expectedPair entry u t w = [] := by
        intro w hw
        simp only [expectedPair, if_pos (And.intro hw h.2)]
      refine ⟨hempty v h.1, ?_⟩
      rw [flatMap_only_empty (fun w => expectedPair entry u t w) (variantSet entry)
        (List.nodup_dedup _) (by simp [variantSet]) (fun w _ hw => hempty w hw)]
      simp [expectedPair]

/-- C1 at the entry whose template names the variant. For
`http://h/index.php?title=Foo&zh` the last query component is the variant code `zh` and
`ros` is the one request of the empty variant; for `http://h/wiki/Foo?action=history`
neither component is a variant code and `ros` contains the request of the variant `zh`,
which differs from that of the empty variant. -/
theorem C1_purge_requests_witness :
    lastQuery queryVariantURL = "zh" ∧
    (handlePurgeRos queryEnv storedOrder [cacheEntry] "http://h/index.php?title=Foo&zh").Perm
      [{ method := "PURGE", url := "http://cache//index.php?title=Foo&zh", headers := [] }] ∧
    ({ method := "PURGE", url := "http://cache/zh/wiki/Foo?action=history",
       headers := [] } : requestOptions) ∈
      handlePurgeRos queryEnv storedOrder [cacheEntry] "http://h/wiki/Foo?action=history" :=
  ⟨(C1_purge_requests queryEnv storedOrder (fun _ _ _ => List.Perm.refl _) [cacheEntry]
      "http://h/index.php?title=Foo&zh" queryVariantURL (by decide)).1.2
      "title=Foo".data "zh".data (by decide) (by decide),
   (show expectedRos queryEnv [cacheEntry] queryVariantURL =
      [{ method := "PURGE", url := "http://cache//index.php?title=Foo&zh", headers := [] }]
      by decide) ▸
    (C1_purge_requests queryEnv storedOrder (fun _ _ _ => List.Perm.refl _) [cacheEntry]
      "http://h/index.php?title=Foo&zh" queryVariantURL (by decide)).2.2.1,
   ((C1_purge_requests queryEnv storedOrder (fun _ _ _ => List.Perm.refl _) [cacheEntry]
      "http://h/wiki/Foo?action=history" historyURL (by decide)).2.2.2 cacheEntry (by decide)
      (by decide) (Or.inl (by decide)) "http://cache/#variants##url#" (by decide) "zh"
      (Or.inr (by decide))).1 (Or.inr (by decide))⟩

/-! ### Subscription lifecycle -/

theorem Subscribe_of_subscribed (newReaderOk : ReaderConfig → Bool)
    (ruleTopics : RuleConfig → List String) (sub : BasicSubscription)
    (h : sub.subscribed = true) :
    sub.Subscribe newReaderOk ruleTopics = some (sub, [], none) := by
  simp only [BasicSubscription.Subscribe, h, if_true]

/-- A call of `Subscribe` on an unsubscribed subscription panics when `kafka.NewReader`
rejects the configuration, and otherwise returns a subscribed subscription with that
reader after one `newReader` and one `startConsume`, with no error. -/
theorem Subscribe_of_unsubscribed (newReaderOk : ReaderConfig → Bool)
    (ruleTopics : RuleConfig → List String) (sub : BasicSubscription)
    (h : sub.subscribed = false) :
    (newReaderOk (sub.readerConfig ruleTopics) = false →
      sub.Subscribe newReaderOk ruleTopics = none) ∧
    (newReaderOk (sub.readerConfig ruleTopics) = true →
      ∃ s1, sub.Subscribe newReaderOk ruleTopics =
          some (s1, [SubEffect.newReader (sub.readerConfig ruleTopics),
            SubEffect.startConsume], none) ∧
        s1.subscribed = true ∧ s1.reader = some (sub.readerConfig ruleTopics) ∧
        s1.cancel = some CancelFunc.loopContext) := by
  constructor
  · intro hr
    simp only [BasicSubscription.Subscribe, h, Bool.false_eq_true, if_false, hr, Bool.not_false,
      if_true]
  · intro hr
    simp only [BasicSubscription.Subscribe, h, Bool.false_eq_true, if_false, hr, Bool.not_true]
    refine ⟨_, rfl, ?_, ?_, rfl⟩
    · split <;> rfl
    · split <;> rfl

theorem Unsubscribe_unsubscribed (sub : BasicSubscription) :
    sub.Unsubscribe.1.subscribed = false := by
  unfold BasicSubscription.Unsubscribe
  cases hs : sub.subscribed
  · simp [hs]
  · simp only [Bool.not_true, Bool.false_eq_true, if_false]
    cases sub.cancel <;> cases sub.reader <;> rfl

/-- C9: `Subscribe` on a subscribed subscription returns no error, makes no call and
leaves every field as it is; `Unsubscribe` on a subscription that is not subscribed
makes no call and leaves every field as it is. A first `Subscribe` on an unsubscribed
subscription either panics in `kafka.NewReader` (the configuration is rejected, nothing
is opened or started) or returns; whenever a `Subscribe` returns, the next `Subscribe`
does nothing, so that two in a row from an unsubscribed subscription open one reader
and start one loop. A second `Unsubscribe` in a row does nothing, and two in a row on
a subscribed subscription with an open reader close that reader once. -/
theorem C9_lifecycle_idempotent (newReaderOk : ReaderConfig → Bool)
    (ruleTopics : RuleConfig → List String) (sub : BasicSubscription) :
    (sub.subscribed = true → sub.Subscribe newReaderOk ruleTopics = some (sub, [], none)) ∧
    (sub.subscribed = false → sub.Unsubscribe = (sub, [])) ∧
    ((sub.Subscribe newReaderOk ruleTopics).isSome =
      (sub.subscribed || newReaderOk (sub.readerConfig ruleTopics))) ∧
    (∀ s1 e1 r1, sub.Subscribe newReaderOk ruleTopics = some (s1, e1, r1) →
      r1 = none ∧ s1.Subscribe newReaderOk ruleTopics = some (s1, [], none) ∧
      (sub.subscribed = false →
        ∀ s2 e2 r2, s1.Subscribe newReaderOk ruleTopics = some (s2, e2, r2) →
          (e1 ++ e2).countP SubEffect.isNewReader = 1 ∧
          (e1 ++ e2).countP SubEffect.isStartConsume = 1 ∧
          s2.reader = some (sub.readerConfig ruleTopics))) ∧
    (sub.Unsubscribe.1.Unsubscribe = (sub.Unsubscribe.1, [])) ∧
    (∀ cfg, sub.subscribed = true → sub.reader = some cfg →
      (sub.Unsubscribe.2 ++ sub.Unsubscribe.1.Unsubscribe.2).filter SubEffect.isCloseReader =
        [SubEffect.closeReader cfg]) := by
  have hunsub : ∀ s : BasicSubscription, s.subscribed = false → s.Unsubscribe = (s, []) := by
    intro s h
    simp only [BasicSubscription.Unsubscribe, h, Bool.not_false, if_true]
  have h3 := hunsub _ (Unsubscribe_unsubscribed sub)
  refine ⟨Subscribe_of_subscribed newReaderOk ruleTopics sub, hunsub sub, ?_, ?_, h3, ?_⟩
  · cases hs : sub.subscribed
    · cases hr : newReaderOk (sub.readerConfig ruleTopics)
      · rw [(Subscribe_of_unsubscribed newReaderOk ruleTopics sub hs).1 hr]; rfl
      · obtain ⟨s1, h1, _⟩ := (Subscribe_of_unsubscribed newReaderOk ruleTopics sub hs).2 hr
        rw [h1]; rfl
    · rw [Subscribe_of_subscribed newReaderOk ruleTopics sub hs]; rfl
  · intro s1 e1 r1 hret
    cases hs : sub.subscribed
    · cases hr : newReaderOk (sub.readerConfig ruleTopics)
      · rw [(Subscribe_of_unsubscribed newReaderOk ruleTopics sub hs).1 hr] at hret
        cases hret
      · obtain ⟨s, h1, hsub, hreader, _⟩ :=
          (Subscribe_of_unsubscribed newReaderOk ruleTopics sub hs).2 hr
        rw [h1] at hret
        injection hret with hret
        injection hret with hs1 hrest
        injection hrest with he1 hr1
        subst hs1
        have h2 := Subscribe_of_subscribed newReaderOk ruleTopics s hsub
        refine ⟨hr1.symm, h2, ?_⟩
        intro _ s2 e2 r2 hret2
        rw [h2] at hret2
        injection hret2 with hret2
        injection hret2 with hs2 hrest2
        injection hrest2 with he2 _
        subst hs2
        rw [← he1, ← he2]
        exact ⟨rfl, rfl, hreader⟩
    · rw [Subscribe_of_subscribed newReaderOk ruleTopics sub hs] at hret
      injection hret with hret
      injection hret with hs1 hrest
      injection hrest with _ hr1
      subst hs1
      refine ⟨hr1.symm, Subscribe_of_subscribed newReaderOk ruleTopics sub hs, ?_⟩
      intro hf
      cases hf
  · intro cfg hs hr
    rw [h3]
    simp only [BasicSubscription.Unsubscribe, hs, Bool.not_true, Bool.false_eq_true, if_false,
      hr, List.append_nil]
    cases sub.cancel <;> rfl

/-- C9 on the sample subscription: the first `Subscribe` returns after opening one
reader and starting one loop, the second does nothing, and then unsubscribing twice
closes the reader once; without any broker the first `Subscribe` does not return. -/
theorem C9_lifecycle_idempotent_witness :
    (subscribedSample.Subscribe sampleReaderOk sampleTopics = some (subscribedSample, [], none) ∧
      ([SubEffect.newReader (sampleSubscription.readerConfig sampleTopics),
          SubEffect.startConsume] ++ []).countP SubEffect.isNewReader = 1) ∧
    (subscribedSample.Unsubscribe.2 ++ subscribedSample.Unsubscribe.1.Unsubscribe.2).filter
        SubEffect.isCloseReader =
      [SubEffect.closeReader
        { Brokers := ["k1:9092", "k2:9092"], GroupID := "timburr-purge",
          GroupTopics := ["mediawiki.purge"], StartOffset := -2 }] ∧
    (brokerlessSubscription.Subscribe sampleReaderOk sampleTopics).isSome = false :=
  ⟨⟨((C9_lifecycle_idempotent sampleReaderOk sampleTopics sampleSubscription).2.2.2.1
        subscribedSample
        [SubEffect.newReader (sampleSubscription.readerConfig sampleTopics),
          SubEffect.startConsume] none (by decide)).2.1,
     (((C9_lifecycle_idempotent sampleReaderOk sampleTopics sampleSubscription).2.2.2.1
        subscribedSample
        [SubEffect.newReader (sampleSubscription.readerConfig sampleTopics),
          SubEffect.startConsume] none (by decide)).2.2 (by decide) subscribedSample [] none
        (by decide)).1⟩,
   (C9_lifecycle_idempotent sampleReaderOk sampleTopics subscribedSample).2.2.2.2.2 _
      (by decide) (by decide),
   (C9_lifecycle_idempotent sampleReaderOk sampleTopics brokerlessSubscription).2.2.1.trans
      (by decide)⟩

end Timburr
